import Mathlib

/-!
# GO-websockets-chatApp: a shallow embedding of the chat server

The Go sources `otp.go`, `manager.go` and `client.go` are embedded as pure
functions with explicit state passing.  Go maps are duplicate-free association
lists whose list order is the (unspecified) order in which `range` visits the
entries; pointers are natural numbers into an explicit heap; the results of
library calls (clock readings, generated keys, JSON decoding, transport reads
and writes) are passed in as arguments.  A send on the unbuffered channel
`egress` completes when the outbound loop of the receiving client takes the
event, and blocks the sender when that loop is not receiving.
-/

namespace ChatApp

/-! ## Go maps -/

/-- A Go map: finitely many entries with at most one entry per key.  The order
of `entries` is the order in which a `range` loop visits them. -/
structure GoMap (κ : Type) (ν : Type) where
  entries : List (κ × ν)
  nodup : (entries.map Prod.fst).Nodup

namespace GoMap

variable {κ ν : Type} [DecidableEq κ]

/-- The map created by `make(map[K]V)`. -/
def empty : GoMap κ ν := ⟨[], List.nodup_nil⟩

/-- Lookup in an association list. -/
def lookupList (k : κ) : List (κ × ν) → Option ν
  | [] => none
  | e :: rest => if e.1 = k then some e.2 else lookupList k rest

/-- The comma-ok read `v, ok := m[k]`. -/
def get? (m : GoMap κ ν) (k : κ) : Option ν := lookupList k m.entries

/-- Removal of every entry stored under `k` from an association list. -/
def eraseList (k : κ) (l : List (κ × ν)) : List (κ × ν) :=
  l.filter (fun e => decide (e.1 ≠ k))

/-- The builtin `delete(m, k)`. -/
def delete (m : GoMap κ ν) (k : κ) : GoMap κ ν :=
  ⟨eraseList k m.entries, m.nodup.sublist ((List.filter_sublist m.entries).map Prod.fst)⟩

/-- The assignment `m[k] = v`. -/
def set (m : GoMap κ ν) (k : κ) (v : ν) : GoMap κ ν :=
  ⟨(k, v) :: eraseList k m.entries,
    List.nodup_cons.2 ⟨by
      intro h
      obtain ⟨e, he, hk⟩ := List.mem_map.1 h
      have hne := (List.mem_filter.1 he).2
      simp [hk] at hne,
      m.nodup.sublist ((List.filter_sublist m.entries).map Prod.fst)⟩⟩

/-- The keys in `range` order. -/
def keys (m : GoMap κ ν) : List κ := m.entries.map Prod.fst

end GoMap

/-! ## otp.go -/

/-- A `time.Time`, as a count of nanoseconds. -/
abbrev Time := Int

/-- A `time.Duration`, in nanoseconds. -/
abbrev Duration := Int

/-- The struct `OTP`. -/
structure OTP where
  Key : String
  Created : Time
  deriving DecidableEq, Repr

/-- The type `RetentionMap`, a `map[string]OTP`. -/
abbrev RetentionMap := GoMap String OTP

/-- The function `NewRetentionMap` (the sweep it starts is `Retention`). -/
def NewRetentionMap : RetentionMap := GoMap.empty

/-- The method `NewOTP`; `key` is the result of `uuid.NewString()` and `now`
the reading of `time.Now()`. -/
def NewOTP (rm : RetentionMap) (key : String) (now : Time) : RetentionMap × OTP :=
  let o : OTP := { Key := key, Created := now }
  (rm.set o.Key o, o)

/-- The method `VerifyOTP`: the map after the call and the returned boolean. -/
def VerifyOTP (rm : RetentionMap) (otp : String) : RetentionMap × Bool :=
  match rm.get? otp with
  | none => (rm, false)
  | some _ => (rm.delete otp, true)

/-- The body of the `range` loop of `Retention` for one produced value, with
`now` the reading of `time.Now()` in that iteration. -/
def Retention.body (retentionPeriod : Duration) (now : Time) (rm : RetentionMap)
    (otp : OTP) : RetentionMap :=
  if otp.Created + retentionPeriod < now then rm.delete otp.Key else rm

/-- The `range rm` loop of `Retention` over the entries still to be visited.
An entry deleted before it is reached is not produced; the `i`-th produced
entry is compared with the clock reading `clock i`. -/
def Retention.range (retentionPeriod : Duration) (clock : Nat → Time) :
    List (String × OTP) → Nat → RetentionMap → RetentionMap
  | [], _, rm => rm
  | e :: rest, i, rm =>
    match rm.get? e.1 with
    | none => Retention.range retentionPeriod clock rest i rm
    | some otp =>
      Retention.range retentionPeriod clock rest (i + 1)
        (Retention.body retentionPeriod (clock i) rm otp)

/-- One pass of `Retention` after a tick of its ticker. -/
def Retention.tick (retentionPeriod : Duration) (clock : Nat → Time)
    (rm : RetentionMap) : RetentionMap :=
  Retention.range retentionPeriod clock rm.entries 0 rm

/-- What the `select` of `Retention` receives. -/
inductive RetentionSignal where
  | tick (clock : Nat → Time)
  | done

/-- The method `Retention` run on a finite sequence of signals: the map at the
end and whether the method has returned. -/
def Retention (retentionPeriod : Duration) :
    List RetentionSignal → RetentionMap → RetentionMap × Bool
  | [], rm => (rm, false)
  | RetentionSignal.tick clock :: rest, rm =>
    Retention retentionPeriod rest (Retention.tick retentionPeriod clock rm)
  | RetentionSignal.done :: _, rm => (rm, true)

/-- Every entry of the store is stored under its own `Key`, as `NewOTP`
stores it. -/
def OwnKeys (rm : RetentionMap) : Prop :=
  ∀ k o, rm.get? k = some o → o.Key = k

/-- A store with two tokens: `old`, issued at time 0, and `new`, issued at
time 8. -/
def sampleStore : RetentionMap :=
  (NewOTP (NewOTP GoMap.empty "old" 0).1 "new" 8).1

/-- An operation on the token store: a login that issues a token, an upgrade
request that verifies one, or a tick of the sweep. -/
inductive OtpOp where
  | issue (key : String) (now : Time)
  | verify (key : String)
  | tick (clock : Nat → Time)

/-- The token store after one operation. -/
def OtpOp.run (retentionPeriod : Duration) (rm : RetentionMap) : OtpOp → RetentionMap
  | OtpOp.issue key now => (NewOTP rm key now).1
  | OtpOp.verify key => (VerifyOTP rm key).1
  | OtpOp.tick clock => Retention.tick retentionPeriod clock rm

/-- The token store after a sequence of operations, first operation first. -/
def runOps (retentionPeriod : Duration) (ops : List OtpOp) (rm : RetentionMap) :
    RetentionMap :=
  ops.foldl (OtpOp.run retentionPeriod) rm

/-- An operation that leaves the token `key`, created at `created`, alone: it
issues or verifies another key, or is a sweep at whose clock readings the
retention window of the token has not passed. -/
def OtpOp.spares (retentionPeriod : Duration) (key : String) (created : Time) :
    OtpOp → Prop
  | OtpOp.issue k _ => k ≠ key
  | OtpOp.verify k => k ≠ key
  | OtpOp.tick clock => ∀ i, ¬ (created + retentionPeriod < clock i)

/-- An operation that does not issue `key` again. -/
def OtpOp.noReissue (key : String) : OtpOp → Prop
  | OtpOp.issue k _ => k ≠ key
  | _ => True

/-! ## Events -/

/-- A byte slice. -/
abbrev Bytes := String

/-- Modelled from the spec: the wire event envelope `Event` of the absent
`event.go`, a type tag (`Type` in Go) and an opaque payload. -/
structure Event where
  Typ : String
  Payload : Bytes
  deriving DecidableEq, Repr

/-- Modelled from the spec: the chat-send request `SendMessageEvent` of the
absent `event.go`, a message text and a sender name. -/
structure SendMessageEvent where
  Message : String
  From : String
  deriving DecidableEq, Repr

/-- Modelled from the spec: the chat-broadcast `NewMessageEvent` of the absent
`event.go`, the sender name and message text with the time of sending. -/
structure NewMessageEvent where
  Message : String
  From : String
  Sent : Time
  deriving DecidableEq, Repr

/-- Modelled from the spec: the room-change request `ChangeRoomEvent` of the
absent `event.go`, the requested room name. -/
structure ChangeRoomEvent where
  Name : String
  deriving DecidableEq, Repr

/-- The constants of the absent `event.go` and the JSON library calls, taken as
parameters.  A decoder returns `none` where `json.Unmarshal` returns an error,
an encoder returns `none` where `json.Marshal` returns an error. -/
structure Env where
  EventSendMessage : String
  EventChangeRoom : String
  EventNewMessage : String
  unmarshalEvent : Bytes → Option Event
  unmarshalSendMessageEvent : Bytes → Option SendMessageEvent
  unmarshalChangeRoomEvent : Bytes → Option ChangeRoomEvent
  marshalNewMessageEvent : NewMessageEvent → Option Bytes
  marshalEvent : Event → Option Bytes

/-- The error values returned by the handlers and the router. -/
inductive HandlerError where
  | badPayload
  | marshalFailed
  | noSuchEventType
  deriving DecidableEq, Repr

/-- The functions stored in `Manager.handlers`, by name. -/
inductive EventHandler where
  | SendMessage
  | ChatRoomHandler
  deriving DecidableEq, Repr

/-! ## client.go and manager.go: state -/

/-- The struct `Client`.  The `manager` field is left out: there is one
manager, held in `World`.  `connection` is the address of the websocket
connection.  The channel `egress` has no buffer, so a send on it completes
only by passing the event to the client's outbound loop; `egress` lists the
events so passed that the loop has not yet handled, oldest first. -/
structure Client where
  connection : Nat
  chatroom : String
  egress : List Event
  deriving DecidableEq, Repr

/-- The type `ClientList`, a `map[*Client]bool`. -/
abbrev ClientList := GoMap Nat Bool

/-- The struct `Manager` (without its mutex). -/
structure Manager where
  clients : ClientList
  otps : RetentionMap
  handlers : GoMap String EventHandler

/-- A message handed to `connection.WriteMessage`. -/
inductive WireMessage where
  | text (data : Bytes)
  | ping
  | close
  deriving DecidableEq, Repr

/-- The program state: the manager, the clients by address, the connections on
which `Close` was called (oldest first) and the calls of `WriteMessage`
(connection, message, whether the call failed; oldest first). -/
structure World where
  manager : Manager
  heap : Nat → Client
  closed : List Nat
  writes : List (Nat × WireMessage × Bool)

/-- Assignment to the client at address `c`. -/
def World.store (w : World) (c : Nat) (v : Client) : World :=
  { w with heap := fun p => if p = c then v else w.heap p }

/-- The function `NewClient`, allocating at address `ptr`. -/
def NewClient (w : World) (ptr : Nat) (conn : Nat) : World :=
  w.store ptr { connection := conn, chatroom := "", egress := [] }

/-- The method `setupEventHandlers`. -/
def setupEventHandlers (env : Env) (m : Manager) : Manager :=
  let m1 := { m with handlers := m.handlers.set env.EventSendMessage EventHandler.SendMessage }
  { m1 with handlers := m1.handlers.set env.EventChangeRoom EventHandler.ChatRoomHandler }

/-- The function `NewManager` (the sweep it starts is `Retention`). -/
def NewManager (env : Env) : Manager :=
  setupEventHandlers env
    { clients := GoMap.empty, handlers := GoMap.empty, otps := NewRetentionMap }

/-- The method `addClient`. -/
def addClient (w : World) (client : Nat) : World :=
  { w with manager := { w.manager with clients := w.manager.clients.set client true } }

/-- The method `removeClient`. -/
def removeClient (w : World) (client : Nat) : World :=
  match w.manager.clients.get? client with
  | some _ =>
    { w with
      closed := w.closed ++ [(w.heap client).connection]
      manager := { w.manager with clients := w.manager.clients.delete client } }
  | none => w

/-! ## manager.go: handlers and routing -/

/-- The function `ChatRoomHandler`. -/
def ChatRoomHandler (env : Env) (event : Event) (c : Nat) (w : World) :
    World × Option HandlerError :=
  match env.unmarshalChangeRoomEvent event.Payload with
  | none => (w, some HandlerError.badPayload)
  | some changeRoomEvent =>
    (w.store c { w.heap c with chatroom := changeRoomEvent.Name }, none)

/-- How a call ends: it returns an error value (`none` for `nil`), or it is
blocked in a channel send and does not return. -/
inductive CallStatus where
  | returned (err : Option HandlerError)
  | blocked
  deriving DecidableEq, Repr

/-- The channel send `client.egress <- outgoingEvent` when it completes: the
outbound loop of `client` receives the event. -/
def World.send (w : World) (client : Nat) (outgoingEvent : Event) : World :=
  w.store client { w.heap client with egress := (w.heap client).egress ++ [outgoingEvent] }

/-- The `range c.manager.clients` loop of `SendMessage` over the clients still
to be visited.  `busy` lists the clients whose outbound loop is not receiving
from `egress`: the send to such a client blocks, and the loop goes no further.
The boolean says whether the loop has run to its end. -/
def SendMessage.range (outgoingEvent : Event) (c : Nat) (busy : List Nat) :
    List Nat → World → World × Bool
  | [], w => (w, true)
  | client :: rest, w =>
    if (w.heap client).chatroom = (w.heap c).chatroom then
      if client ∈ busy then (w, false)
      else SendMessage.range outgoingEvent c busy rest (w.send client outgoingEvent)
    else SendMessage.range outgoingEvent c busy rest w

/-- The function `SendMessage`, with `now` the reading of `time.Now()` and
`busy` the clients whose outbound loop is not receiving. -/
def SendMessage (env : Env) (now : Time) (busy : List Nat) (event : Event) (c : Nat)
    (w : World) : World × CallStatus :=
  match env.unmarshalSendMessageEvent event.Payload with
  | none => (w, CallStatus.returned (some HandlerError.badPayload))
  | some chatEvent =>
    let broadMessage : NewMessageEvent :=
      { Sent := now, Message := chatEvent.Message, From := chatEvent.From }
    match env.marshalNewMessageEvent broadMessage with
    | none => (w, CallStatus.returned (some HandlerError.marshalFailed))
    | some data =>
      let outgoingEvent : Event := { Payload := data, Typ := env.EventNewMessage }
      match SendMessage.range outgoingEvent c busy w.manager.clients.keys w with
      | (w1, true) => (w1, CallStatus.returned none)
      | (w1, false) => (w1, CallStatus.blocked)

/-- The call of a stored handler. -/
def callHandler (env : Env) (now : Time) (busy : List Nat) (event : Event) (c : Nat)
    (w : World) : EventHandler → World × CallStatus
  | EventHandler.SendMessage => SendMessage env now busy event c w
  | EventHandler.ChatRoomHandler =>
    ((ChatRoomHandler env event c w).1, CallStatus.returned (ChatRoomHandler env event c w).2)

/-- The method `routeEvent`. -/
def routeEvent (env : Env) (now : Time) (busy : List Nat) (event : Event) (c : Nat)
    (w : World) : World × CallStatus :=
  match w.manager.handlers.get? event.Typ with
  | some handler =>
    match callHandler env now busy event c w handler with
    | (w1, CallStatus.returned (some err)) => (w1, CallStatus.returned (some err))
    | (w1, CallStatus.returned none) => (w1, CallStatus.returned none)
    | (w1, CallStatus.blocked) => (w1, CallStatus.blocked)
  | none => (w, CallStatus.returned (some HandlerError.noSuchEventType))

/-! ## manager.go: the upgrade endpoint -/

/-- An upgrade request as `serveWS` sees it: the `otp` query parameter (empty
when absent), the connection returned by `websocketUpgrader.Upgrade` (`none`
when it returns an error) and the address at which `NewClient` allocates. -/
structure UpgradeRequest where
  otp : String
  upgrade : Option Nat
  client : Nat
  deriving DecidableEq, Repr

/-- What `serveWS` answers: a status it writes itself, the error answer of the
upgrader, or the upgraded connection. -/
inductive Response where
  | status (code : Nat)
  | upgradeError
  | upgraded
  deriving DecidableEq, Repr

/-- The constant `http.StatusUnauthorized`. -/
def StatusUnauthorized : Nat := 401

/-- The method `serveWS` (the two loops it starts are `readMessages` and
`writeMessages`). -/
def serveWS (r : UpgradeRequest) (w : World) : World × Response :=
  if r.otp = "" then (w, Response.status StatusUnauthorized)
  else
    match VerifyOTP w.manager.otps r.otp with
    | (_, false) => (w, Response.status StatusUnauthorized)
    | (otps, true) =>
      let w1 : World := { w with manager := { w.manager with otps := otps } }
      match r.upgrade with
      | none => (w1, Response.upgradeError)
      | some conn => (addClient (NewClient w1 r.client conn) r.client, Response.upgraded)

/-! ## client.go: the two loops -/

/-- Whether a loop is still waiting for input, is blocked in a channel send,
or has returned. -/
inductive LoopStatus where
  | running
  | blocked
  | returned
  deriving DecidableEq, Repr

/-- What `connection.ReadMessage` returns: an error, or a frame, given with the
reading of `time.Now()` and the clients whose outbound loop is not receiving
while the frame is handled. -/
inductive ReadResult where
  | error
  | message (payload : Bytes) (now : Time) (busy : List Nat)
  deriving DecidableEq, Repr

/-- The `for` loop of `readMessages` on a finite sequence of read results. -/
def readMessages.loop (env : Env) (c : Nat) : List ReadResult → World → World × LoopStatus
  | [], w => (w, LoopStatus.running)
  | ReadResult.error :: _, w => (w, LoopStatus.returned)
  | ReadResult.message payload now busy :: rest, w =>
    match env.unmarshalEvent payload with
    | none => (w, LoopStatus.returned)
    | some request =>
      match routeEvent env now busy request c w with
      | (w1, CallStatus.returned _) => readMessages.loop env c rest w1
      | (w1, CallStatus.blocked) => (w1, LoopStatus.blocked)

/-- The method `readMessages`; `deadlineFailed` says whether `SetReadDeadline`
returned an error.  The deferred `removeClient` runs when the method returns. -/
def readMessages (env : Env) (deadlineFailed : Bool) (reads : List ReadResult) (c : Nat)
    (w : World) : World × LoopStatus :=
  if deadlineFailed then (removeClient w c, LoopStatus.returned)
  else
    match readMessages.loop env c reads w with
    | (w1, LoopStatus.returned) => (removeClient w1 c, LoopStatus.returned)
    | (w1, LoopStatus.blocked) => (w1, LoopStatus.blocked)
    | (w1, LoopStatus.running) => (w1, LoopStatus.running)

/-- The case taken by the `select` of `writeMessages`, with whether the
`WriteMessage` call of that case fails: a receive from `egress`, a receive
from the closed `egress`, or a tick of the ping ticker. -/
inductive WriteSelect where
  | message (writeFailed : Bool)
  | closed (writeFailed : Bool)
  | tick (writeFailed : Bool)
  deriving DecidableEq, Repr

/-- The call `c.connection.WriteMessage`. -/
def World.write (w : World) (c : Nat) (msg : WireMessage) (failed : Bool) : World :=
  { w with writes := w.writes ++ [((w.heap c).connection, msg, failed)] }

/-- The `for` loop of `writeMessages` on a finite sequence of `select`
outcomes.  A receive from an empty `egress` is not ready and is passed over. -/
def writeMessages.loop (env : Env) (c : Nat) : List WriteSelect → World → World × LoopStatus
  | [], w => (w, LoopStatus.running)
  | WriteSelect.message writeFailed :: rest, w =>
    match (w.heap c).egress with
    | [] => writeMessages.loop env c rest w
    | message :: queue =>
      let w1 := w.store c { w.heap c with egress := queue }
      match env.marshalEvent message with
      | none => (w1, LoopStatus.returned)
      | some data =>
        writeMessages.loop env c rest (w1.write c (WireMessage.text data) writeFailed)
  | WriteSelect.closed writeFailed :: _, w =>
    (w.write c WireMessage.close writeFailed, LoopStatus.returned)
  | WriteSelect.tick writeFailed :: rest, w =>
    let w1 := w.write c WireMessage.ping writeFailed
    if writeFailed then (w1, LoopStatus.returned)
    else writeMessages.loop env c rest w1

/-- The method `writeMessages`.  The deferred `removeClient` runs when the
method returns. -/
def writeMessages (env : Env) (selects : List WriteSelect) (c : Nat) (w : World) :
    World × LoopStatus :=
  match writeMessages.loop env c selects w with
  | (w1, LoopStatus.returned) => (removeClient w1 c, LoopStatus.returned)
  | (w1, status) => (w1, status)

/-! ## A sample configuration -/

/-- Event type tags and toy JSON codecs for the examples: a frame is decoded
by table, a chat-send payload is the message text (sender `A`), a room-change
payload is the room name, and an empty payload does not decode. -/
def sampleEnv : Env where
  EventSendMessage := "send_message"
  EventChangeRoom := "change_room"
  EventNewMessage := "new_message"
  unmarshalEvent := fun frame =>
    if frame = "send hi" then some ⟨"send_message", "hi"⟩
    else if frame = "send" then some ⟨"send_message", ""⟩
    else if frame = "join lobby" then some ⟨"change_room", "lobby"⟩
    else if frame = "dance" then some ⟨"dance", ""⟩
    else none
  unmarshalSendMessageEvent := fun payload =>
    if payload = "" then none else some ⟨payload, "A"⟩
  unmarshalChangeRoomEvent := fun payload =>
    if payload = "" then none else some ⟨payload⟩
  marshalNewMessageEvent := fun m => some m.Message
  marshalEvent := fun e => some e.Payload

/-- Three registered clients: 1 and 2 in room `lobby`, 3 in room `other`;
client `p` owns connection `10 + p`.  Token `abc` is in the store. -/
def sampleWorld : World where
  manager :=
    { clients := ⟨[(1, true), (2, true), (3, true)], by decide⟩
      otps := (NewOTP GoMap.empty "abc" 0).1
      handlers := (NewManager sampleEnv).handlers }
  heap := fun p => if p = 3 then ⟨13, "other", []⟩ else ⟨10 + p, "lobby", []⟩
  closed := []
  writes := []

/-- The sample world with a fourth registered client, 4, in room `lobby`. -/
def crowdedWorld : World :=
  { sampleWorld with
    manager :=
      { sampleWorld.manager with
        clients := ⟨[(1, true), (2, true), (3, true), (4, true)], by decide⟩ } }

/-! ## Lemmas on Go maps -/

namespace GoMap

variable {κ ν : Type} [DecidableEq κ]

theorem lookupList_eraseList (k j : κ) (l : List (κ × ν)) :
    lookupList j (eraseList k l) = if j = k then none else lookupList j l := by
  induction l with
  | nil => simp [eraseList, lookupList]
  | cons e rest ih =>
    unfold eraseList at ih ⊢
    by_cases hek : e.1 = k
    · rw [List.filter_cons_of_neg (by simpa using hek), ih]
      by_cases hj : j = k
      · simp [hj]
      · have : ¬ e.1 = j := by rw [hek]; exact fun h => hj h.symm
        simp [hj, lookupList, this]
    · rw [List.filter_cons_of_pos (by simpa using hek)]
      simp only [lookupList, ih]
      by_cases hj : j = k
      · have : ¬ e.1 = j := by rw [hj]; exact hek
        simp [hj, hek]
      · simp [hj]

theorem get?_delete (m : GoMap κ ν) (k j : κ) :
    (m.delete k).get? j = if j = k then none else m.get? j :=
  lookupList_eraseList k j m.entries

theorem get?_set (m : GoMap κ ν) (k j : κ) (v : ν) :
    (m.set k v).get? j = if j = k then some v else m.get? j := by
  show lookupList j ((k, v) :: eraseList k m.entries) = _
  by_cases hj : j = k
  · simp [lookupList, hj]
  · have : ¬ k = j := fun h => hj h.symm
    simp [lookupList, this, hj, lookupList_eraseList, get?]

theorem lookupList_eq_none_iff (k : κ) (l : List (κ × ν)) :
    lookupList k l = none ↔ k ∉ l.map Prod.fst := by
  induction l with
  | nil => simp [lookupList]
  | cons e rest ih =>
    by_cases h : e.1 = k
    · simp [lookupList, h]
    · have h2 : ¬ k = e.1 := fun h3 => h h3.symm
      simp [lookupList, h, h2, ih]

theorem get?_eq_none_iff (m : GoMap κ ν) (k : κ) : m.get? k = none ↔ k ∉ m.keys :=
  lookupList_eq_none_iff k m.entries

end GoMap

/-! ## The token store -/

/-- C1: `VerifyOTP(k)` returns true exactly when `k` is a key of the map before
the call; on true the resulting map is the old one with the entry under `k`
removed and every other entry unchanged, on false the map is unchanged. -/
theorem VerifyOTP_contract (rm : RetentionMap) (k : String) :
    ((VerifyOTP rm k).2 = true ↔ rm.get? k ≠ none) ∧
    ((VerifyOTP rm k).2 = true →
      ∀ j, (VerifyOTP rm k).1.get? j = if j = k then none else rm.get? j) ∧
    ((VerifyOTP rm k).2 = false → (VerifyOTP rm k).1 = rm) := by
  unfold VerifyOTP
  cases h : rm.get? k with
  | none => simp
  | some o => simp [GoMap.get?_delete]


theorem ownKeys_empty : OwnKeys GoMap.empty := by
  intro k o h
  simp [GoMap.get?, GoMap.empty, GoMap.lookupList] at h

theorem ownKeys_delete {rm : RetentionMap} (h : OwnKeys rm) (k : String) :
    OwnKeys (rm.delete k) := by
  intro j o hj
  rw [GoMap.get?_delete] at hj
  by_cases hjk : j = k
  · simp [hjk] at hj
  · rw [if_neg hjk] at hj
    exact h j o hj

theorem ownKeys_NewOTP {rm : RetentionMap} (h : OwnKeys rm) (key : String) (now : Time) :
    OwnKeys (NewOTP rm key now).1 := by
  intro j o hj
  simp only [NewOTP] at hj
  rw [GoMap.get?_set] at hj
  by_cases hjk : j = key
  · rw [if_pos hjk] at hj
    cases hj
    exact hjk.symm
  · rw [if_neg hjk] at hj
    exact h j o hj

theorem VerifyOTP_fst (rm : RetentionMap) (k : String) :
    (VerifyOTP rm k).1 = rm.delete k ∨ (VerifyOTP rm k).1 = rm := by
  unfold VerifyOTP
  cases rm.get? k <;> simp

theorem VerifyOTP_snd (rm : RetentionMap) (k : String) :
    (VerifyOTP rm k).2 = (rm.get? k).isSome := by
  unfold VerifyOTP
  cases rm.get? k <;> simp

theorem get?_VerifyOTP (rm : RetentionMap) (k j : String) :
    (VerifyOTP rm k).1.get? j = if j = k then none else rm.get? j := by
  unfold VerifyOTP
  cases h : rm.get? k with
  | none =>
    by_cases hj : j = k
    · simp [hj, h]
    · simp [hj]
  | some o => simp [GoMap.get?_delete]

theorem ownKeys_VerifyOTP {rm : RetentionMap} (h : OwnKeys rm) (k : String) :
    OwnKeys (VerifyOTP rm k).1 := by
  rcases VerifyOTP_fst rm k with h1 | h1 <;> rw [h1]
  · exact ownKeys_delete h k
  · exact h

theorem get?_body (p : Duration) (now : Time) (rm : RetentionMap) (otp : OTP) (k : String) :
    (Retention.body p now rm otp).get? k =
      if otp.Created + p < now ∧ k = otp.Key then none else rm.get? k := by
  unfold Retention.body
  by_cases hx : otp.Created + p < now
  · by_cases hk : k = otp.Key <;> simp [hx, hk, GoMap.get?_delete]
  · simp [hx]

theorem ownKeys_body {rm : RetentionMap} (h : OwnKeys rm) (p : Duration) (now : Time)
    (otp : OTP) : OwnKeys (Retention.body p now rm otp) := by
  unfold Retention.body
  split
  · exact ownKeys_delete h _
  · exact h

/-- A sweep only deletes: each key is afterwards absent or maps to what it
mapped to before. -/
theorem get?_range_sub (p : Duration) (clock : Nat → Time) (l : List (String × OTP)) :
    ∀ (i : Nat) (cur : RetentionMap) (k : String),
      (Retention.range p clock l i cur).get? k = none ∨
      (Retention.range p clock l i cur).get? k = cur.get? k := by
  induction l with
  | nil => intro i cur k; exact Or.inr rfl
  | cons e rest ih =>
    intro i cur k
    unfold Retention.range
    cases h : cur.get? e.1 with
    | none => exact ih i cur k
    | some otp =>
      simp only
      rcases ih (i + 1) (Retention.body p (clock i) cur otp) k with h1 | h1
      · exact Or.inl h1
      · rw [h1, get?_body]
        by_cases hc : otp.Created + p < clock i ∧ k = otp.Key
        · exact Or.inl (if_pos hc)
        · exact Or.inr (if_neg hc)

theorem ownKeys_tick {rm : RetentionMap} (h : OwnKeys rm) (p : Duration)
    (clock : Nat → Time) : OwnKeys (Retention.tick p clock rm) := by
  intro k o hk
  rcases get?_range_sub p clock rm.entries 0 rm k with h1 | h1
  · rw [Retention.tick, h1] at hk; cases hk
  · rw [Retention.tick, h1] at hk; exact h k o hk

/-- A sweep keeps a token whose retention window has not passed at any of the
clock readings of the sweep. -/
theorem get?_range_spared (p : Duration) (clock : Nat → Time) (key : String) (o : OTP)
    (hfresh : ∀ i, ¬ (o.Created + p < clock i)) (l : List (String × OTP)) :
    ∀ (i : Nat) (cur : RetentionMap), OwnKeys cur → cur.get? key = some o →
      (Retention.range p clock l i cur).get? key = some o := by
  induction l with
  | nil => intro i cur _ hk; exact hk
  | cons e rest ih =>
    intro i cur hown hk
    unfold Retention.range
    cases h : cur.get? e.1 with
    | none => exact ih i cur hown hk
    | some otp =>
      simp only
      apply ih (i + 1) _ (ownKeys_body hown p (clock i) otp)
      rw [get?_body]
      have hkey : otp.Key = e.1 := hown _ _ h
      by_cases hc : otp.Created + p < clock i ∧ key = otp.Key
      · exfalso
        have hke : key = e.1 := hc.2.trans hkey
        rw [hke, h] at hk
        cases hk
        exact hfresh i hc.1
      · rw [if_neg hc]; exact hk

/-- The sweep at one clock reading `now`: an entry among those still to visit
is kept exactly when its retention window has not passed. -/
theorem get?_range_const (p : Duration) (now : Time) (l : List (String × OTP)) :
    ∀ (i : Nat) (cur : RetentionMap), OwnKeys cur → ∀ k,
      (Retention.range p (fun _ => now) l i cur).get? k =
        if k ∈ l.map Prod.fst then
          (cur.get? k).filter (fun o => decide (¬ (o.Created + p < now)))
        else cur.get? k := by
  induction l with
  | nil => intro i cur _ k; simp [Retention.range]
  | cons e rest ih =>
    intro i cur hown k
    unfold Retention.range
    cases h : cur.get? e.1 with
    | none =>
      simp only
      rw [ih i cur hown k]
      by_cases hk : k = e.1
      · subst hk
        simp [h, Option.filter]
      · have hmem : k ∈ (e :: rest).map Prod.fst ↔ k ∈ rest.map Prod.fst := by
          simp [hk]
        by_cases hr : k ∈ rest.map Prod.fst
        · rw [if_pos hr, if_pos (hmem.2 hr)]
        · rw [if_neg hr, if_neg (fun hh => hr (hmem.1 hh))]
    | some otp =>
      simp only
      rw [ih (i + 1) _ (ownKeys_body hown p now otp) k, get?_body]
      have hkey : otp.Key = e.1 := hown _ _ h
      rw [hkey]
      by_cases hk : k = e.1
      · subst hk
        by_cases hx : otp.Created + p < now
        · simp [hx, h, Option.filter]
        · simp [hx, h, Option.filter]
      · have hmem : k ∈ (e :: rest).map Prod.fst ↔ k ∈ rest.map Prod.fst := by
          simp [hk]
        have hnot : ¬ (otp.Created + p < now ∧ k = e.1) := fun hh => hk hh.2
        rw [if_neg hnot]
        by_cases hr : k ∈ rest.map Prod.fst
        · rw [if_pos hr, if_pos (hmem.2 hr)]
        · rw [if_neg hr, if_neg (fun hh => hr (hmem.1 hh))]

theorem ownKeys_run {rm : RetentionMap} (h : OwnKeys rm) (p : Duration) (op : OtpOp) :
    OwnKeys (op.run p rm) := by
  cases op with
  | issue key now => exact ownKeys_NewOTP h key now
  | verify key => exact ownKeys_VerifyOTP h key
  | tick clock => exact ownKeys_tick h p clock

theorem ownKeys_runOps (p : Duration) (ops : List OtpOp) :
    ∀ rm : RetentionMap, OwnKeys rm → OwnKeys (runOps p ops rm) := by
  induction ops with
  | nil => intro rm h; exact h
  | cons op rest ih => intro rm h; exact ih _ (ownKeys_run h p op)

theorem ownKeys_sampleStore : OwnKeys sampleStore :=
  ownKeys_NewOTP (ownKeys_NewOTP ownKeys_empty "old" 0) "new" 8

theorem get?_run_spared (p : Duration) (key : String) (o : OTP) {rm : RetentionMap}
    (hown : OwnKeys rm) (hk : rm.get? key = some o) (op : OtpOp)
    (hop : op.spares p key o.Created) : (op.run p rm).get? key = some o := by
  cases op with
  | issue k now =>
    have hne : ¬ key = k := fun h => hop h.symm
    simp only [OtpOp.run, NewOTP]
    rw [GoMap.get?_set, if_neg hne]
    exact hk
  | verify k =>
    have hne : ¬ key = k := fun h => hop h.symm
    simp only [OtpOp.run]
    rw [get?_VerifyOTP, if_neg hne]
    exact hk
  | tick clock =>
    exact get?_range_spared p clock key o hop rm.entries 0 rm hown hk

theorem get?_runOps_spared (p : Duration) (key : String) (o : OTP) (ops : List OtpOp) :
    ∀ rm : RetentionMap, OwnKeys rm → rm.get? key = some o →
      (∀ op ∈ ops, op.spares p key o.Created) → (runOps p ops rm).get? key = some o := by
  induction ops with
  | nil => intro rm _ hk _; exact hk
  | cons op rest ih =>
    intro rm hown hk hops
    exact ih _ (ownKeys_run hown p op)
      (get?_run_spared p key o hown hk op (hops op (List.mem_cons_self op rest)))
      (fun op2 h2 => hops op2 (List.mem_cons_of_mem op h2))

theorem get?_run_absent (p : Duration) (key : String) {rm : RetentionMap}
    (hk : rm.get? key = none) (op : OtpOp) (hop : op.noReissue key) :
    (op.run p rm).get? key = none := by
  cases op with
  | issue k now =>
    have hne : ¬ key = k := fun h => hop h.symm
    simp only [OtpOp.run, NewOTP]
    rw [GoMap.get?_set, if_neg hne]
    exact hk
  | verify k =>
    simp only [OtpOp.run]
    rw [get?_VerifyOTP]
    split
    · rfl
    · exact hk
  | tick clock =>
    rcases get?_range_sub p clock rm.entries 0 rm key with h1 | h1
    · exact h1
    · exact h1.trans hk

theorem get?_runOps_absent (p : Duration) (key : String) (ops : List OtpOp) :
    ∀ rm : RetentionMap, rm.get? key = none → (∀ op ∈ ops, op.noReissue key) →
      (runOps p ops rm).get? key = none := by
  induction ops with
  | nil => intro rm hk _; exact hk
  | cons op rest ih =>
    intro rm hk hops
    exact ih _ (get?_run_absent p key hk op (hops op (List.mem_cons_self op rest)))
      (fun op2 h2 => hops op2 (List.mem_cons_of_mem op h2))

/-- C2: a token returned by `NewOTP` is accepted by the first `VerifyOTP` of its
key, made after any operations that leave it alone (other keys issued or
verified, sweeps at which its window has not passed), and rejected by every
later `VerifyOTP` of its key, whatever sweeps, verifications and issues of
other keys come in between. -/
theorem NewOTP_verified_once (p : Duration) (rm : RetentionMap) (key : String) (now : Time)
    (before after : List OtpOp) (hown : OwnKeys rm)
    (hbefore : ∀ op ∈ before, op.spares p key now)
    (hafter : ∀ op ∈ after, op.noReissue key) :
    (NewOTP rm key now).2.Key = key ∧
    (VerifyOTP (runOps p before (NewOTP rm key now).1) key).2 = true ∧
    (VerifyOTP (runOps p after
      (VerifyOTP (runOps p before (NewOTP rm key now).1) key).1) key).2 = false := by
  refine ⟨rfl, ?_, ?_⟩
  · rw [VerifyOTP_snd]
    have h0 : (NewOTP rm key now).1.get? key = some ⟨key, now⟩ := by
      simp only [NewOTP]
      rw [GoMap.get?_set, if_pos rfl]
    rw [get?_runOps_spared p key ⟨key, now⟩ before _ (ownKeys_NewOTP hown key now) h0 hbefore]
    rfl
  · rw [VerifyOTP_snd]
    have h0 : (VerifyOTP (runOps p before (NewOTP rm key now).1) key).1.get? key = none := by
      rw [get?_VerifyOTP, if_pos rfl]
    rw [get?_runOps_absent p key after _ h0 hafter]
    rfl

/-- Witness of C2: token `abc` is issued at time 0 with a retention of 5; a
sweep at time 3, a verification of `x` and an issue of `y` come before its
first verification, a sweep at time 100 and a second verification of `abc`
before its last. -/
theorem NewOTP_verified_once_witness :
    (NewOTP GoMap.empty "abc" 0).2.Key = "abc" ∧
    (VerifyOTP (runOps 5 [OtpOp.tick (fun _ => 3), OtpOp.verify "x", OtpOp.issue "y" 1]
      (NewOTP GoMap.empty "abc" 0).1) "abc").2 = true ∧
    (VerifyOTP (runOps 5 [OtpOp.tick (fun _ => 100), OtpOp.verify "abc"]
      (VerifyOTP (runOps 5 [OtpOp.tick (fun _ => 3), OtpOp.verify "x", OtpOp.issue "y" 1]
        (NewOTP GoMap.empty "abc" 0).1) "abc").1) "abc").2 = false :=
  NewOTP_verified_once 5 GoMap.empty "abc" 0
    [OtpOp.tick (fun _ => 3), OtpOp.verify "x", OtpOp.issue "y" 1]
    [OtpOp.tick (fun _ => 100), OtpOp.verify "abc"] ownKeys_empty
    (by
      intro op hop
      simp only [List.mem_cons, List.mem_singleton, List.not_mem_nil, or_false] at hop
      rcases hop with rfl | rfl | rfl
      · intro i; show ¬ ((0 : Int) + 5 < 3); decide
      · show ¬ "x" = "abc"; decide
      · show ¬ "y" = "abc"; decide)
    (by
      intro op hop
      simp only [List.mem_cons, List.mem_singleton, List.not_mem_nil, or_false] at hop
      rcases hop with rfl | rfl
      · exact True.intro
      · exact True.intro)

/-- C3: in a store whose entries are stored under their own keys, one sweep
pass at clock reading `now` leaves exactly the tokens whose `Created` plus the
retention period has not passed, each unchanged, and deletes every other; a
token whose window has passed is rejected by `VerifyOTP` after the pass. -/
theorem Retention_tick_expires (rm : RetentionMap) (p : Duration) (now : Time)
    (hown : OwnKeys rm) :
    (∀ k, (Retention.tick p (fun _ => now) rm).get? k =
      (rm.get? k).filter (fun o => decide (¬ (o.Created + p < now)))) ∧
    (∀ k o, rm.get? k = some o → o.Created + p < now →
      (VerifyOTP (Retention.tick p (fun _ => now) rm) k).2 = false) := by
  have hmain : ∀ k, (Retention.tick p (fun _ => now) rm).get? k =
      (rm.get? k).filter (fun o => decide (¬ (o.Created + p < now))) := by
    intro k
    rw [Retention.tick, get?_range_const p now rm.entries 0 rm hown k]
    by_cases hk : k ∈ rm.entries.map Prod.fst
    · rw [if_pos hk]
    · rw [if_neg hk, (GoMap.get?_eq_none_iff rm k).2 hk]
      rfl
  refine ⟨hmain, ?_⟩
  intro k o hk hx
  rw [VerifyOTP_snd, hmain k, hk]
  simp [Option.filter, hx]

/-- Witness of C3: the sample store swept at time 10 with a retention of 5. -/
theorem Retention_tick_expires_witness :
    OwnKeys sampleStore ∧
    (∀ k, (Retention.tick 5 (fun _ => 10) sampleStore).get? k =
      (sampleStore.get? k).filter (fun o => decide (¬ (o.Created + 5 < 10)))) ∧
    (∀ k o, sampleStore.get? k = some o → o.Created + 5 < 10 →
      (VerifyOTP (Retention.tick 5 (fun _ => 10) sampleStore) k).2 = false) :=
  ⟨ownKeys_sampleStore, Retention_tick_expires sampleStore 5 10 ownKeys_sampleStore⟩

/-- C10: `VerifyOTP` answers by presence of the key alone, without looking at
`Created` or at a clock, so there is a store holding a token whose retention
window has already passed that `VerifyOTP` still accepts. -/
theorem VerifyOTP_accepts_unswept :
    (∀ (rm : RetentionMap) (k : String), (VerifyOTP rm k).2 = (rm.get? k).isSome) ∧
    ∃ (rm : RetentionMap) (p : Duration) (now : Time) (k : String) (o : OTP),
      rm.get? k = some o ∧ o.Created + p < now ∧ (VerifyOTP rm k).2 = true :=
  ⟨VerifyOTP_snd, sampleStore, 5, 10, "old", ⟨"old", 0⟩, by decide, by decide, by decide⟩

/-! ## The registry -/

/-- C5: removing a client twice leaves the same state as removing it once, the
transport being closed once if the client was registered and not at all
otherwise; removing a client that is not registered changes nothing. -/
theorem removeClient_idempotent (w : World) (c : Nat) :
    removeClient (removeClient w c) c = removeClient w c ∧
    (removeClient (removeClient w c) c).closed =
      (if (w.manager.clients.get? c).isSome then w.closed ++ [(w.heap c).connection]
       else w.closed) ∧
    (removeClient w c).manager.clients.get? c = none ∧
    (w.manager.clients.get? c = none → removeClient w c = w) := by
  unfold removeClient
  cases h : w.manager.clients.get? c with
  | none => simp [h]
  | some b => simp [GoMap.get?_delete]

/-- C9: `ChatRoomHandler` fails with the bad-payload error and changes nothing
when the payload does not decode, and otherwise succeeds and sets the room of
`c` to the requested name; either way no egress queue, no other client, and
neither the registry nor the rest of the manager changes. -/
theorem ChatRoomHandler_frame (env : Env) (event : Event) (c : Nat) (w : World) :
    (env.unmarshalChangeRoomEvent event.Payload = none →
      ChatRoomHandler env event c w = (w, some HandlerError.badPayload)) ∧
    (∀ room, env.unmarshalChangeRoomEvent event.Payload = some room →
      (ChatRoomHandler env event c w).2 = none ∧
      ((ChatRoomHandler env event c w).1.heap c).chatroom = room.Name) ∧
    (∀ d, ((ChatRoomHandler env event c w).1.heap d).egress = (w.heap d).egress) ∧
    (∀ d, d ≠ c → (ChatRoomHandler env event c w).1.heap d = w.heap d) ∧
    (ChatRoomHandler env event c w).1.manager = w.manager ∧
    (ChatRoomHandler env event c w).1.closed = w.closed ∧
    (ChatRoomHandler env event c w).1.writes = w.writes := by
  unfold ChatRoomHandler
  cases h : env.unmarshalChangeRoomEvent event.Payload with
  | none => simp
  | some room =>
    refine ⟨by simp, ?_, ?_, ?_, rfl, rfl, rfl⟩
    · intro room2 h2
      cases h2
      simp [World.store]
    · intro d
      by_cases hd : d = c
      · simp [World.store, hd]
      · simp [World.store, hd]
    · intro d hd
      simp [World.store, hd]

/-- C6: a request whose `otp` parameter is empty or is rejected by `VerifyOTP`
is answered with status 401 and changes nothing; the registry changes only on
a request whose otp was in the store; and a request whose otp is in the store
consumes exactly that token, and registers its client when the upgrade
succeeds. -/
theorem serveWS_gate (r : UpgradeRequest) (w : World) :
    ((r.otp = "" ∨ (VerifyOTP w.manager.otps r.otp).2 = false) →
      serveWS r w = (w, Response.status 401)) ∧
    ((serveWS r w).1.manager.clients ≠ w.manager.clients →
      r.otp ≠ "" ∧ w.manager.otps.get? r.otp ≠ none) ∧
    (r.otp ≠ "" → w.manager.otps.get? r.otp ≠ none →
      (serveWS r w).1.manager.otps = w.manager.otps.delete r.otp ∧
      (∀ j, (serveWS r w).1.manager.otps.get? j =
        if j = r.otp then none else w.manager.otps.get? j) ∧
      (∀ conn, r.upgrade = some conn →
        (serveWS r w).2 = Response.upgraded ∧
        (serveWS r w).1.manager.clients.get? r.client = some true)) := by
  unfold serveWS VerifyOTP
  by_cases hempty : r.otp = ""
  · simp [hempty, StatusUnauthorized]
  · cases h : w.manager.otps.get? r.otp with
    | none => simp [hempty, StatusUnauthorized]
    | some o =>
      cases hu : r.upgrade with
      | none => simp [hempty, GoMap.get?_delete]
      | some conn =>
        simp [hempty, GoMap.get?_delete, addClient, NewClient, World.store, GoMap.get?_set]

/-! ## Broadcast -/

theorem send_heap (w : World) (client : Nat) (ev : Event) (d : Nat) :
    (w.send client ev).heap d =
      if d = client then { w.heap client with egress := (w.heap client).egress ++ [ev] }
      else w.heap d := rfl

theorem send_chatroom (w : World) (client : Nat) (ev : Event) (d : Nat) :
    ((w.send client ev).heap d).chatroom = (w.heap d).chatroom := by
  rw [send_heap]
  by_cases hd : d = client
  · rw [if_pos hd, hd]
  · rw [if_neg hd]

/-- The broadcast loop runs to its end exactly when no visited client in the
room of `c` is busy. -/
theorem SendMessage_range_done_iff (ev : Event) (c : Nat) (busy : List Nat) (l : List Nat) :
    ∀ w : World, (SendMessage.range ev c busy l w).2 = true ↔
      ∀ d ∈ l, (w.heap d).chatroom = (w.heap c).chatroom → d ∉ busy := by
  induction l with
  | nil => intro w; simp [SendMessage.range]
  | cons a rest ih =>
    intro w
    unfold SendMessage.range
    by_cases hroom : (w.heap a).chatroom = (w.heap c).chatroom
    · rw [if_pos hroom]
      by_cases hb : a ∈ busy
      · rw [if_pos hb]
        constructor
        · intro h; cases h
        · intro h; exact absurd hb (h a (List.mem_cons_self a rest) hroom)
      · rw [if_neg hb, ih]
        simp only [send_chatroom]
        constructor
        · intro h d hd
          rcases List.mem_cons.1 hd with rfl | hd2
          · intro _; exact hb
          · exact h d hd2
        · intro h d hd
          exact h d (List.mem_cons_of_mem a hd)
    · rw [if_neg hroom, ih]
      constructor
      · intro h d hd
        rcases List.mem_cons.1 hd with rfl | hd2
        · intro hm; exact absurd hm hroom
        · exact h d hd2
      · intro h d hd
        exact h d (List.mem_cons_of_mem a hd)

/-- The broadcast loop changes nothing but egress queues, and a queue it
changes belongs to a visited client in the room of `c` that is not busy and
has the event appended once. -/
theorem SendMessage_range_frame (ev : Event) (c : Nat) (busy : List Nat) (l : List Nat) :
    l.Nodup → ∀ w : World,
      (SendMessage.range ev c busy l w).1.manager = w.manager ∧
      (SendMessage.range ev c busy l w).1.closed = w.closed ∧
      (SendMessage.range ev c busy l w).1.writes = w.writes ∧
      ∀ d, (SendMessage.range ev c busy l w).1.heap d = w.heap d ∨
        (d ∈ l ∧ (w.heap d).chatroom = (w.heap c).chatroom ∧ d ∉ busy ∧
          (SendMessage.range ev c busy l w).1.heap d =
            { w.heap d with egress := (w.heap d).egress ++ [ev] }) := by
  induction l with
  | nil =>
    intro _ w
    exact ⟨rfl, rfl, rfl, fun d => Or.inl rfl⟩
  | cons a rest ih =>
    intro hnd w
    have hna : a ∉ rest := (List.nodup_cons.1 hnd).1
    have hrest : rest.Nodup := (List.nodup_cons.1 hnd).2
    unfold SendMessage.range
    by_cases hroom : (w.heap a).chatroom = (w.heap c).chatroom
    · rw [if_pos hroom]
      by_cases hb : a ∈ busy
      · rw [if_pos hb]
        exact ⟨rfl, rfl, rfl, fun d => Or.inl rfl⟩
      · rw [if_neg hb]
        obtain ⟨h1, h2, h3, h4⟩ := ih hrest (w.send a ev)
        refine ⟨h1, h2, h3, ?_⟩
        intro d
        by_cases hd : d = a
        · subst hd
          rcases h4 d with h5 | h5
          · right
            refine ⟨List.mem_cons_self d rest, hroom, hb, ?_⟩
            rw [h5, send_heap, if_pos rfl]
          · exact absurd h5.1 hna
        · rcases h4 d with h5 | ⟨h5, h6, h7, h8⟩
          · left
            rw [h5, send_heap, if_neg hd]
          · right
            rw [send_chatroom, send_chatroom] at h6
            refine ⟨List.mem_cons_of_mem a h5, h6, h7, ?_⟩
            rw [h8, send_heap, if_neg hd]
    · rw [if_neg hroom]
      obtain ⟨h1, h2, h3, h4⟩ := ih hrest w
      refine ⟨h1, h2, h3, ?_⟩
      intro d
      rcases h4 d with h5 | ⟨h5, h6, h7, h8⟩
      · exact Or.inl h5
      · exact Or.inr ⟨List.mem_cons_of_mem a h5, h6, h7, h8⟩

/-- When no visited client in the room of `c` is busy, the broadcast loop
appends the event once to the queue of each of them and to no other queue. -/
theorem SendMessage_range_spec (ev : Event) (c : Nat) (busy : List Nat) (l : List Nat) :
    l.Nodup → ∀ w : World,
      (∀ d ∈ l, (w.heap d).chatroom = (w.heap c).chatroom → d ∉ busy) →
      ∀ d, (SendMessage.range ev c busy l w).1.heap d =
        if d ∈ l ∧ (w.heap d).chatroom = (w.heap c).chatroom then
          { w.heap d with egress := (w.heap d).egress ++ [ev] }
        else w.heap d := by
  induction l with
  | nil =>
    intro _ w _ d
    simp [SendMessage.range]
  | cons a rest ih =>
    intro hnd w hfree d
    have hna : a ∉ rest := (List.nodup_cons.1 hnd).1
    have hrest : rest.Nodup := (List.nodup_cons.1 hnd).2
    unfold SendMessage.range
    by_cases hroom : (w.heap a).chatroom = (w.heap c).chatroom
    · have hb : a ∉ busy := hfree a (List.mem_cons_self a rest) hroom
      rw [if_pos hroom, if_neg hb]
      have hfree2 : ∀ x ∈ rest,
          ((w.send a ev).heap x).chatroom = ((w.send a ev).heap c).chatroom → x ∉ busy := by
        intro x hx hm
        rw [send_chatroom, send_chatroom] at hm
        exact hfree x (List.mem_cons_of_mem a hx) hm
      rw [ih hrest (w.send a ev) hfree2 d, send_chatroom, send_chatroom]
      by_cases hd : d = a
      · subst hd
        have hnot : ¬ (d ∈ rest ∧ (w.heap d).chatroom = (w.heap c).chatroom) :=
          fun hh => hna hh.1
        rw [if_neg hnot, send_heap, if_pos rfl]
        have hyes : d ∈ d :: rest ∧ (w.heap d).chatroom = (w.heap c).chatroom :=
          ⟨List.mem_cons_self d rest, hroom⟩
        rw [if_pos hyes]
      · have hmem : d ∈ a :: rest ↔ d ∈ rest := by simp [hd]
        rw [send_heap, if_neg hd]
        by_cases hc : d ∈ rest ∧ (w.heap d).chatroom = (w.heap c).chatroom
        · rw [if_pos hc, if_pos ⟨hmem.2 hc.1, hc.2⟩]
        · rw [if_neg hc, if_neg (fun hh => hc ⟨hmem.1 hh.1, hh.2⟩)]
    · rw [if_neg hroom]
      have hfree2 : ∀ x ∈ rest, (w.heap x).chatroom = (w.heap c).chatroom → x ∉ busy :=
        fun x hx hm => hfree x (List.mem_cons_of_mem a hx) hm
      rw [ih hrest w hfree2 d]
      by_cases hd : d = a
      · subst hd
        have hnot : ¬ (d ∈ rest ∧ (w.heap d).chatroom = (w.heap c).chatroom) :=
          fun hh => hna hh.1
        have hnot2 : ¬ (d ∈ d :: rest ∧ (w.heap d).chatroom = (w.heap c).chatroom) :=
          fun hh => hroom hh.2
        rw [if_neg hnot, if_neg hnot2]
      · have hmem : d ∈ a :: rest ↔ d ∈ rest := by simp [hd]
        by_cases hc : d ∈ rest ∧ (w.heap d).chatroom = (w.heap c).chatroom
        · rw [if_pos hc, if_pos ⟨hmem.2 hc.1, hc.2⟩]
        · rw [if_neg hc, if_neg (fun hh => hc ⟨hmem.1 hh.1, hh.2⟩)]

theorem mem_keys_iff (m : ClientList) (d : Nat) : d ∈ m.keys ↔ m.get? d ≠ none := by
  rw [Ne, GoMap.get?_eq_none_iff, not_not]

theorem SendMessage_eq (env : Env) (now : Time) (busy : List Nat) (event : Event) (c : Nat)
    (w : World) (chatEvent : SendMessageEvent) (data : Bytes)
    (hdec : env.unmarshalSendMessageEvent event.Payload = some chatEvent)
    (hmar : env.marshalNewMessageEvent
      { Message := chatEvent.Message, From := chatEvent.From, Sent := now } = some data) :
    SendMessage env now busy event c w =
      ((SendMessage.range { Typ := env.EventNewMessage, Payload := data } c busy
          w.manager.clients.keys w).1,
        if (SendMessage.range { Typ := env.EventNewMessage, Payload := data } c busy
          w.manager.clients.keys w).2 = true then CallStatus.returned none
        else CallStatus.blocked) := by
  unfold SendMessage
  simp only [hdec, hmar]
  rcases SendMessage.range { Typ := env.EventNewMessage, Payload := data } c busy
    w.manager.clients.keys w with ⟨w1, _ | _⟩ <;> simp

/-- C4, as amended: when the chat-send payload decodes (and the broadcast
message encodes), `SendMessage` changes no room and nothing of the manager,
and every egress queue is either unchanged or belongs to a registered client
in the room of the sender `c` and has the new-message event, carrying the
sender and text of the request, appended exactly once.  It returns `nil`
exactly when no registered client in that room is busy, and then every such
client has received the event; it blocks in a channel send, without
returning, exactly when some registered client in that room is busy. -/
theorem SendMessage_broadcast (env : Env) (now : Time) (busy : List Nat) (event : Event)
    (c : Nat) (w : World) (chatEvent : SendMessageEvent) (data : Bytes)
    (hdec : env.unmarshalSendMessageEvent event.Payload = some chatEvent)
    (hmar : env.marshalNewMessageEvent
      { Message := chatEvent.Message, From := chatEvent.From, Sent := now } = some data) :
    (SendMessage env now busy event c w).1.manager = w.manager ∧
    (∀ d, ((SendMessage env now busy event c w).1.heap d).chatroom = (w.heap d).chatroom) ∧
    (∀ d, ((SendMessage env now busy event c w).1.heap d).egress = (w.heap d).egress ∨
      (w.manager.clients.get? d ≠ none ∧ (w.heap d).chatroom = (w.heap c).chatroom ∧
        d ∉ busy ∧
        ((SendMessage env now busy event c w).1.heap d).egress =
          (w.heap d).egress ++ [{ Typ := env.EventNewMessage, Payload := data }])) ∧
    ((SendMessage env now busy event c w).2 = CallStatus.returned none ↔
      ∀ d, w.manager.clients.get? d ≠ none →
        (w.heap d).chatroom = (w.heap c).chatroom → d ∉ busy) ∧
    ((SendMessage env now busy event c w).2 = CallStatus.blocked ↔
      ∃ d, w.manager.clients.get? d ≠ none ∧
        (w.heap d).chatroom = (w.heap c).chatroom ∧ d ∈ busy) ∧
    ((∀ d, w.manager.clients.get? d ≠ none →
        (w.heap d).chatroom = (w.heap c).chatroom → d ∉ busy) →
      ∀ d, ((SendMessage env now busy event c w).1.heap d).egress =
        if w.manager.clients.get? d ≠ none ∧ (w.heap d).chatroom = (w.heap c).chatroom then
          (w.heap d).egress ++ [{ Typ := env.EventNewMessage, Payload := data }]
        else (w.heap d).egress) := by
  rw [SendMessage_eq env now busy event c w chatEvent data hdec hmar]
  obtain ⟨h1, _, _, h4⟩ :=
    SendMessage_range_frame { Typ := env.EventNewMessage, Payload := data } c busy
      w.manager.clients.keys w.manager.clients.nodup w
  have hdone := SendMessage_range_done_iff { Typ := env.EventNewMessage, Payload := data }
    c busy w.manager.clients.keys w
  have hfree : (SendMessage.range { Typ := env.EventNewMessage, Payload := data } c busy
      w.manager.clients.keys w).2 = true ↔
      ∀ d, w.manager.clients.get? d ≠ none →
        (w.heap d).chatroom = (w.heap c).chatroom → d ∉ busy := by
    rw [hdone]
    constructor
    · intro h d hd
      exact h d ((mem_keys_iff _ d).2 hd)
    · intro h d hd
      exact h d ((mem_keys_iff _ d).1 hd)
  refine ⟨h1, ?_, ?_, ?_, ?_, ?_⟩
  · intro d
    rcases h4 d with h5 | ⟨_, _, _, h5⟩
    · simp only [h5]
    · simp only [h5]
  · intro d
    rcases h4 d with h5 | ⟨h5, h6, h7, h8⟩
    · left
      simp only [h5]
    · right
      refine ⟨(mem_keys_iff _ d).1 h5, h6, h7, ?_⟩
      simp only [h8]
  · rw [← hfree]
    by_cases hr : (SendMessage.range { Typ := env.EventNewMessage, Payload := data } c busy
        w.manager.clients.keys w).2 = true
    · simp [hr]
    · simp [hr]
  · have hnot : (∃ d, w.manager.clients.get? d ≠ none ∧
        (w.heap d).chatroom = (w.heap c).chatroom ∧ d ∈ busy) ↔
        ¬ (SendMessage.range { Typ := env.EventNewMessage, Payload := data } c busy
          w.manager.clients.keys w).2 = true := by
      rw [hfree]
      constructor
      · rintro ⟨d, hd1, hd2, hd3⟩ h
        exact h d hd1 hd2 hd3
      · intro h
        by_contra hcon
        apply h
        intro d hd1 hd2 hd3
        exact hcon ⟨d, hd1, hd2, hd3⟩
    rw [hnot]
    by_cases hr : (SendMessage.range { Typ := env.EventNewMessage, Payload := data } c busy
        w.manager.clients.keys w).2 = true
    · simp [hr]
    · simp [hr]
  · intro hall d
    have hspec := SendMessage_range_spec { Typ := env.EventNewMessage, Payload := data } c
      busy w.manager.clients.keys w.manager.clients.nodup w
      (fun x hx hm => hall x ((mem_keys_iff _ x).1 hx) hm) d
    simp only [hspec]
    by_cases hc : d ∈ w.manager.clients.keys ∧ (w.heap d).chatroom = (w.heap c).chatroom
    · rw [if_pos hc, if_pos ⟨(mem_keys_iff _ d).1 hc.1, hc.2⟩]
    · rw [if_neg hc, if_neg (fun hh => hc ⟨(mem_keys_iff _ d).2 hh.1, hh.2⟩)]

/-- Witness of C4: clients 1 and 2 are in `lobby`, client 3 in `other`, nobody
is busy; client 1 sends `hi`. -/
theorem SendMessage_broadcast_witness :
    (SendMessage sampleEnv 7 [] ⟨"send_message", "hi"⟩ 1 sampleWorld).2 =
      CallStatus.returned none ∧
    ((SendMessage sampleEnv 7 [] ⟨"send_message", "hi"⟩ 1 sampleWorld).1.heap 2).egress =
      [⟨"new_message", "hi"⟩] ∧
    ((SendMessage sampleEnv 7 [] ⟨"send_message", "hi"⟩ 1 sampleWorld).1.heap 3).egress = [] :=
  have h := SendMessage_broadcast sampleEnv 7 [] ⟨"send_message", "hi"⟩ 1 sampleWorld
    ⟨"hi", "A"⟩ "hi" rfl rfl
  have hfree : ∀ d, sampleWorld.manager.clients.get? d ≠ none →
      (sampleWorld.heap d).chatroom = (sampleWorld.heap 1).chatroom → d ∉ ([] : List Nat) :=
    fun d _ _ => List.not_mem_nil d
  ⟨h.2.2.2.1.2 hfree, (h.2.2.2.2.2 hfree 2).trans (by decide),
    (h.2.2.2.2.2 hfree 3).trans (by decide)⟩

/-- Counterexample to C4 as stated: clients 1, 2 and 4 are registered in
`lobby` and the outbound loop of client 2 is not receiving.  Client 1 sends
`hi`, whose payload decodes; `SendMessage` blocks in the send to client 2 and
does not return, and neither client 2 nor client 4 gets the event. -/
theorem SendMessage_blocked_counterexample :
    sampleEnv.unmarshalSendMessageEvent "hi" = some ⟨"hi", "A"⟩ ∧
    crowdedWorld.manager.clients.get? 2 = some true ∧
    crowdedWorld.manager.clients.get? 4 = some true ∧
    (crowdedWorld.heap 2).chatroom = (crowdedWorld.heap 1).chatroom ∧
    (crowdedWorld.heap 4).chatroom = (crowdedWorld.heap 1).chatroom ∧
    (SendMessage sampleEnv 7 [2] ⟨"send_message", "hi"⟩ 1 crowdedWorld).2 =
      CallStatus.blocked ∧
    ((SendMessage sampleEnv 7 [2] ⟨"send_message", "hi"⟩ 1 crowdedWorld).1.heap 1).egress =
      [⟨"new_message", "hi"⟩] ∧
    ((SendMessage sampleEnv 7 [2] ⟨"send_message", "hi"⟩ 1 crowdedWorld).1.heap 2).egress =
      [] ∧
    ((SendMessage sampleEnv 7 [2] ⟨"send_message", "hi"⟩ 1 crowdedWorld).1.heap 4).egress =
      [] := by
  decide

/-! ## The loops of a client -/

theorem removeClient_spec (w : World) (c : Nat) :
    (∀ d, (removeClient w c).manager.clients.get? d =
      if d = c then none else w.manager.clients.get? d) ∧
    (removeClient w c).closed =
      (if (w.manager.clients.get? c).isSome then w.closed ++ [(w.heap c).connection]
       else w.closed) ∧
    (removeClient w c).manager.otps = w.manager.otps ∧
    (removeClient w c).manager.handlers = w.manager.handlers ∧
    (removeClient w c).heap = w.heap := by
  unfold removeClient
  cases h : w.manager.clients.get? c with
  | none =>
    refine ⟨?_, by simp, rfl, rfl, rfl⟩
    intro d
    by_cases hd : d = c
    · simp [hd, h]
    · simp [hd]
  | some b =>
    refine ⟨?_, by simp, rfl, rfl, rfl⟩
    intro d
    simp [GoMap.get?_delete]

theorem SendMessage_status (env : Env) (now : Time) (busy : List Nat) (event : Event)
    (c : Nat) (w : World) :
    ((SendMessage env now busy event c w).2 = CallStatus.returned none ∨
      (SendMessage env now busy event c w).2 = CallStatus.blocked) ∨
    (∃ err, (SendMessage env now busy event c w).2 = CallStatus.returned (some err)) ∧
      (SendMessage env now busy event c w).1 = w := by
  unfold SendMessage
  cases h1 : env.unmarshalSendMessageEvent event.Payload with
  | none => exact Or.inr ⟨⟨_, rfl⟩, rfl⟩
  | some chatEvent =>
    simp only
    cases h2 : env.marshalNewMessageEvent
        { Message := chatEvent.Message, From := chatEvent.From, Sent := now } with
    | none => exact Or.inr ⟨⟨_, rfl⟩, rfl⟩
    | some data =>
      simp only
      rcases SendMessage.range { Typ := env.EventNewMessage, Payload := data } c busy
        w.manager.clients.keys w with ⟨w1, _ | _⟩
      · exact Or.inl (Or.inr rfl)
      · exact Or.inl (Or.inl rfl)

theorem SendMessage_frame (env : Env) (now : Time) (busy : List Nat) (event : Event)
    (c : Nat) (w : World) :
    (SendMessage env now busy event c w).1.manager = w.manager ∧
    (SendMessage env now busy event c w).1.closed = w.closed ∧
    (∀ d, ((SendMessage env now busy event c w).1.heap d).connection =
      (w.heap d).connection) ∧
    (busy = [] → (SendMessage env now busy event c w).2 ≠ CallStatus.blocked) := by
  unfold SendMessage
  cases h1 : env.unmarshalSendMessageEvent event.Payload with
  | none => exact ⟨rfl, rfl, fun _ => rfl, fun _ h => by cases h⟩
  | some chatEvent =>
    simp only
    cases h2 : env.marshalNewMessageEvent
        { Message := chatEvent.Message, From := chatEvent.From, Sent := now } with
    | none => exact ⟨rfl, rfl, fun _ => rfl, fun _ h => by cases h⟩
    | some data =>
      simp only
      obtain ⟨h3, h4, _, h6⟩ :=
        SendMessage_range_frame { Typ := env.EventNewMessage, Payload := data } c busy
          w.manager.clients.keys w.manager.clients.nodup w
      have hdone := SendMessage_range_done_iff
        { Typ := env.EventNewMessage, Payload := data } c busy w.manager.clients.keys w
      rcases hr : SendMessage.range { Typ := env.EventNewMessage, Payload := data } c busy
        w.manager.clients.keys w with ⟨w1, _ | _⟩
      · rw [hr] at h3 h4 h6 hdone
        refine ⟨h3, h4, ?_, ?_⟩
        · intro d
          rcases h6 d with h7 | ⟨_, _, _, h7⟩
          · exact congrArg Client.connection h7
          · have h8 := congrArg Client.connection h7
            exact h8
        · intro hb
          exfalso
          have : (false = true) := hdone.2 (fun d _ _ => by rw [hb]; exact List.not_mem_nil d)
          cases this
      · rw [hr] at h3 h4 h6
        refine ⟨h3, h4, ?_, fun _ h => by cases h⟩
        intro d
        rcases h6 d with h7 | ⟨_, _, _, h7⟩
        · exact congrArg Client.connection h7
        · have h8 := congrArg Client.connection h7
          exact h8

theorem ChatRoomHandler_connection (env : Env) (event : Event) (c : Nat) (w : World) :
    (ChatRoomHandler env event c w).1.manager = w.manager ∧
    (ChatRoomHandler env event c w).1.closed = w.closed ∧
    ∀ d, ((ChatRoomHandler env event c w).1.heap d).connection = (w.heap d).connection := by
  unfold ChatRoomHandler
  cases env.unmarshalChangeRoomEvent event.Payload with
  | none => exact ⟨rfl, rfl, fun _ => rfl⟩
  | some room =>
    refine ⟨rfl, rfl, ?_⟩
    intro d
    by_cases hd : d = c
    · simp [World.store, hd]
    · simp [World.store, hd]

theorem callHandler_error_unchanged (env : Env) (now : Time) (busy : List Nat)
    (event : Event) (c : Nat) (w : World) (handler : EventHandler) (err : HandlerError)
    (herr : (callHandler env now busy event c w handler).2 =
      CallStatus.returned (some err)) :
    (callHandler env now busy event c w handler).1 = w := by
  cases handler with
  | SendMessage =>
    simp only [callHandler] at herr ⊢
    rcases SendMessage_status env now busy event c w with (h | h) | ⟨_, h⟩
    · rw [h] at herr; cases herr
    · rw [h] at herr; cases herr
    · exact h
  | ChatRoomHandler =>
    simp only [callHandler, ChatRoomHandler] at herr ⊢
    cases h1 : env.unmarshalChangeRoomEvent event.Payload with
    | none => rfl
    | some room =>
      rw [h1] at herr
      cases herr

theorem callHandler_frame (env : Env) (now : Time) (busy : List Nat) (event : Event)
    (c : Nat) (w : World) (handler : EventHandler) :
    (callHandler env now busy event c w handler).1.manager = w.manager ∧
    (callHandler env now busy event c w handler).1.closed = w.closed ∧
    (∀ d, ((callHandler env now busy event c w handler).1.heap d).connection =
      (w.heap d).connection) ∧
    (busy = [] → (callHandler env now busy event c w handler).2 ≠ CallStatus.blocked) := by
  cases handler with
  | SendMessage => exact SendMessage_frame env now busy event c w
  | ChatRoomHandler =>
    obtain ⟨h1, h2, h3⟩ := ChatRoomHandler_connection env event c w
    exact ⟨h1, h2, h3, fun _ h => by cases h⟩

theorem routeEvent_eq (env : Env) (now : Time) (busy : List Nat) (event : Event) (c : Nat)
    (w : World) :
    routeEvent env now busy event c w =
      match w.manager.handlers.get? event.Typ with
      | some handler => callHandler env now busy event c w handler
      | none => (w, CallStatus.returned (some HandlerError.noSuchEventType)) := by
  unfold routeEvent
  cases w.manager.handlers.get? event.Typ with
  | none => rfl
  | some handler =>
    simp only
    rcases hc : callHandler env now busy event c w handler with ⟨w1, (_ | err) | _⟩ <;> rfl

theorem routeEvent_error_unchanged (env : Env) (now : Time) (busy : List Nat)
    (event : Event) (c : Nat) (w : World) (err : HandlerError)
    (herr : (routeEvent env now busy event c w).2 = CallStatus.returned (some err)) :
    (routeEvent env now busy event c w).1 = w := by
  rw [routeEvent_eq] at herr ⊢
  cases h : w.manager.handlers.get? event.Typ with
  | none => rfl
  | some handler =>
    rw [h] at herr
    exact callHandler_error_unchanged env now busy event c w handler err herr

theorem routeEvent_frame (env : Env) (now : Time) (busy : List Nat) (event : Event)
    (c : Nat) (w : World) :
    (routeEvent env now busy event c w).1.manager = w.manager ∧
    (routeEvent env now busy event c w).1.closed = w.closed ∧
    (∀ d, ((routeEvent env now busy event c w).1.heap d).connection =
      (w.heap d).connection) ∧
    (busy = [] → (routeEvent env now busy event c w).2 ≠ CallStatus.blocked) := by
  rw [routeEvent_eq]
  cases h : w.manager.handlers.get? event.Typ with
  | none => exact ⟨rfl, rfl, fun _ => rfl, fun _ h => by cases h⟩
  | some handler => exact callHandler_frame env now busy event c w handler

theorem readMessages_loop_cons (env : Env) (c : Nat) (payload : Bytes) (now : Time)
    (busy : List Nat) (rest : List ReadResult) (w : World) (request : Event)
    (h : env.unmarshalEvent payload = some request) :
    readMessages.loop env c (ReadResult.message payload now busy :: rest) w =
      if (routeEvent env now busy request c w).2 = CallStatus.blocked then
        ((routeEvent env now busy request c w).1, LoopStatus.blocked)
      else readMessages.loop env c rest (routeEvent env now busy request c w).1 := by
  rw [readMessages.loop]
  simp only [h]
  rcases routeEvent env now busy request c w with ⟨w1, _ | _⟩ <;> simp

/-- The inbound loop returns only at a read error or a frame whose envelope
does not decode, and does not wait for further input once there is one. -/
theorem readMessages_loop_status (env : Env) (c : Nat) (reads : List ReadResult) :
    ∀ w : World,
      ((readMessages.loop env c reads w).2 = LoopStatus.returned →
        ∃ r ∈ reads, r = ReadResult.error ∨
          ∃ payload now busy, r = ReadResult.message payload now busy ∧
            env.unmarshalEvent payload = none) ∧
      ((∃ r ∈ reads, r = ReadResult.error ∨
          ∃ payload now busy, r = ReadResult.message payload now busy ∧
            env.unmarshalEvent payload = none) →
        (readMessages.loop env c reads w).2 ≠ LoopStatus.running) := by
  induction reads with
  | nil =>
    intro w
    simp [readMessages.loop]
  | cons r rest ih =>
    intro w
    cases r with
    | error =>
      refine ⟨fun _ => ⟨_, List.mem_cons_self _ _, Or.inl rfl⟩, fun _ h => ?_⟩
      simp [readMessages.loop] at h
    | message payload now busy =>
      cases h : env.unmarshalEvent payload with
      | none =>
        refine ⟨fun _ => ⟨_, List.mem_cons_self _ _, Or.inr ⟨payload, now, busy, rfl, h⟩⟩,
          fun _ h2 => ?_⟩
        simp [readMessages.loop, h] at h2
      | some request =>
        rw [readMessages_loop_cons env c payload now busy rest w request h]
        by_cases hb : (routeEvent env now busy request c w).2 = CallStatus.blocked
        · rw [if_pos hb]
          refine ⟨fun h2 => ?_, fun _ h2 => ?_⟩
          · cases h2
          · cases h2
        · rw [if_neg hb]
          obtain ⟨ih1, ih2⟩ := ih (routeEvent env now busy request c w).1
          constructor
          · intro h2
            obtain ⟨r, hr, hx⟩ := ih1 h2
            exact ⟨r, List.mem_cons_of_mem _ hr, hx⟩
          · rintro ⟨r, hr, hx⟩
            apply ih2
            rcases List.mem_cons.1 hr with rfl | hr2
            · rcases hx with hx | ⟨p2, n2, b2, hp, hnone⟩
              · cases hx
              · cases hp
                rw [h] at hnone
                cases hnone
            · exact ⟨r, hr2, hx⟩

theorem readMessages_loop_not_blocked (env : Env) (c : Nat) (reads : List ReadResult) :
    ∀ w : World,
      (∀ payload now busy, ReadResult.message payload now busy ∈ reads → busy = []) →
      (readMessages.loop env c reads w).2 ≠ LoopStatus.blocked := by
  induction reads with
  | nil => intro w _ h; cases h
  | cons r rest ih =>
    intro w hfree
    cases r with
    | error => intro h; cases h
    | message payload now busy =>
      cases h : env.unmarshalEvent payload with
      | none =>
        intro h2
        simp [readMessages.loop, h] at h2
      | some request =>
        rw [readMessages_loop_cons env c payload now busy rest w request h]
        have hb : (routeEvent env now busy request c w).2 ≠ CallStatus.blocked :=
          (routeEvent_frame env now busy request c w).2.2.2
            (hfree payload now busy (List.mem_cons_self _ _))
        rw [if_neg hb]
        exact ih _ (fun p n b hm => hfree p n b (List.mem_cons_of_mem _ hm))

theorem readMessages_loop_frame (env : Env) (c : Nat) (reads : List ReadResult) :
    ∀ w : World, (readMessages.loop env c reads w).1.manager = w.manager ∧
      (readMessages.loop env c reads w).1.closed = w.closed ∧
      ∀ d, ((readMessages.loop env c reads w).1.heap d).connection =
        (w.heap d).connection := by
  induction reads with
  | nil => intro w; exact ⟨rfl, rfl, fun _ => rfl⟩
  | cons r rest ih =>
    intro w
    cases r with
    | error => exact ⟨rfl, rfl, fun _ => rfl⟩
    | message payload now busy =>
      cases h : env.unmarshalEvent payload with
      | none =>
        simp only [readMessages.loop, h]
        exact ⟨trivial, trivial, fun _ => trivial⟩
      | some request =>
        rw [readMessages_loop_cons env c payload now busy rest w request h]
        obtain ⟨h3, h4, h5, _⟩ := routeEvent_frame env now busy request c w
        by_cases hb : (routeEvent env now busy request c w).2 = CallStatus.blocked
        · rw [if_pos hb]
          exact ⟨h3, h4, h5⟩
        · rw [if_neg hb]
          obtain ⟨h1, h2, h6⟩ := ih (routeEvent env now busy request c w).1
          exact ⟨h1.trans h3, h2.trans h4, fun d => (h6 d).trans (h5 d)⟩

theorem readMessages_eq (env : Env) (reads : List ReadResult) (c : Nat) (w : World) :
    readMessages env false reads c w =
      if (readMessages.loop env c reads w).2 = LoopStatus.returned then
        (removeClient (readMessages.loop env c reads w).1 c, LoopStatus.returned)
      else readMessages.loop env c reads w := by
  unfold readMessages
  rcases h : readMessages.loop env c reads w with ⟨w1, _ | _ | _⟩ <;> simp

theorem readMessages_status (env : Env) (reads : List ReadResult) (c : Nat) (w : World) :
    (readMessages env false reads c w).2 = (readMessages.loop env c reads w).2 := by
  rw [readMessages_eq]
  by_cases h : (readMessages.loop env c reads w).2 = LoopStatus.returned
  · rw [if_pos h, h]
  · rw [if_neg h]

/-- C8: in the inbound loop, a frame whose envelope decodes but whose routing
fails (no handler, or a handler error) changes nothing and the loop goes on
with the next frame, so a room-change sent afterwards takes effect.  The loop
returns only at a read error or an envelope that does not decode, and it does
return there unless a broadcast before it is blocked in a channel send, which
no broadcast is when no outbound loop is busy.  Until the loop returns the
registry and the closed transports are as before; when it returns the client
is removed from the registry and, if it was registered, its transport is
closed once. -/
theorem readMessages_handler_errors (env : Env) (c : Nat) (w : World) :
    (∀ payload now busy request rest err, env.unmarshalEvent payload = some request →
      (routeEvent env now busy request c w).2 = CallStatus.returned (some err) →
      (routeEvent env now busy request c w).1 = w ∧
      readMessages env false (ReadResult.message payload now busy :: rest) c w =
        readMessages env false rest c w) ∧
    (∀ payload now busy request err payload2 now2 busy2 request2 room,
      env.unmarshalEvent payload = some request →
      (routeEvent env now busy request c w).2 = CallStatus.returned (some err) →
      env.unmarshalEvent payload2 = some request2 →
      w.manager.handlers.get? request2.Typ = some EventHandler.ChatRoomHandler →
      env.unmarshalChangeRoomEvent request2.Payload = some room →
      (readMessages env false
        [ReadResult.message payload now busy, ReadResult.message payload2 now2 busy2]
          c w).2 = LoopStatus.running ∧
      ((readMessages env false
        [ReadResult.message payload now busy, ReadResult.message payload2 now2 busy2]
          c w).1.heap c).chatroom = room.Name ∧
      (readMessages env false
        [ReadResult.message payload now busy, ReadResult.message payload2 now2 busy2]
          c w).1.manager = w.manager) ∧
    (∀ reads, (readMessages env false reads c w).2 = LoopStatus.returned ↔
      (∃ r ∈ reads, r = ReadResult.error ∨
        ∃ payload now busy, r = ReadResult.message payload now busy ∧
          env.unmarshalEvent payload = none) ∧
      (readMessages env false reads c w).2 ≠ LoopStatus.blocked) ∧
    (∀ reads,
      (∀ payload now busy, ReadResult.message payload now busy ∈ reads → busy = []) →
      (readMessages env false reads c w).2 ≠ LoopStatus.blocked) ∧
    (∀ reads, (readMessages env false reads c w).2 ≠ LoopStatus.returned →
      (readMessages env false reads c w).1.manager = w.manager ∧
      (readMessages env false reads c w).1.closed = w.closed) ∧
    (∀ reads, (readMessages env false reads c w).2 = LoopStatus.returned →
      (∀ d, (readMessages env false reads c w).1.manager.clients.get? d =
        if d = c then none else w.manager.clients.get? d) ∧
      (readMessages env false reads c w).1.closed =
        (if (w.manager.clients.get? c).isSome then w.closed ++ [(w.heap c).connection]
         else w.closed) ∧
      (readMessages env false reads c w).1.manager.otps = w.manager.otps ∧
      (readMessages env false reads c w).1.manager.handlers = w.manager.handlers) := by
  have hstep : ∀ payload now busy request rest err, env.unmarshalEvent payload = some request →
      (routeEvent env now busy request c w).2 = CallStatus.returned (some err) →
      readMessages env false (ReadResult.message payload now busy :: rest) c w =
        readMessages env false rest c w := by
    intro payload now busy request rest err hdec herr
    have hw := routeEvent_error_unchanged env now busy request c w err herr
    have hnb : ¬ (routeEvent env now busy request c w).2 = CallStatus.blocked := by
      rw [herr]; intro h; cases h
    rw [readMessages_eq, readMessages_eq,
      readMessages_loop_cons env c payload now busy rest w request hdec, if_neg hnb, hw]
  refine ⟨?_, ?_, ?_, ?_, ?_, ?_⟩
  · intro payload now busy request rest err hdec herr
    exact ⟨routeEvent_error_unchanged env now busy request c w err herr,
      hstep payload now busy request rest err hdec herr⟩
  · intro payload now busy request err payload2 now2 busy2 request2 room hdec herr hdec2 hh
      hroom
    rw [hstep payload now busy request _ err hdec herr]
    have hroute : routeEvent env now2 busy2 request2 c w =
        (w.store c { w.heap c with chatroom := room.Name }, CallStatus.returned none) := by
      rw [routeEvent_eq, hh]
      simp only [callHandler, ChatRoomHandler, hroom]
    have hloop : readMessages.loop env c [ReadResult.message payload2 now2 busy2] w =
        (w.store c { w.heap c with chatroom := room.Name }, LoopStatus.running) := by
      rw [readMessages_loop_cons env c payload2 now2 busy2 [] w request2 hdec2, hroute]
      simp [readMessages.loop]
    have hrun : readMessages env false [ReadResult.message payload2 now2 busy2] c w =
        (w.store c { w.heap c with chatroom := room.Name }, LoopStatus.running) := by
      rw [readMessages_eq, hloop]
      simp
    rw [hrun]
    refine ⟨rfl, ?_, rfl⟩
    simp [World.store]
  · intro reads
    rw [readMessages_status]
    obtain ⟨h1, h2⟩ := readMessages_loop_status env c reads w
    constructor
    · intro h
      exact ⟨h1 h, by rw [h]; intro h3; cases h3⟩
    · rintro ⟨hbad, hnb⟩
      have hnr := h2 hbad
      cases hs : (readMessages.loop env c reads w).2 with
      | running => exact absurd hs hnr
      | blocked => exact absurd hs hnb
      | returned => rfl
  · intro reads hfree
    rw [readMessages_status]
    exact readMessages_loop_not_blocked env c reads w hfree
  · intro reads hnr
    rw [readMessages_status] at hnr
    rw [readMessages_eq, if_neg hnr]
    obtain ⟨h1, h2, _⟩ := readMessages_loop_frame env c reads w
    exact ⟨h1, h2⟩
  · intro reads hr
    rw [readMessages_status] at hr
    rw [readMessages_eq, if_pos hr]
    obtain ⟨h1, h2, h3⟩ := readMessages_loop_frame env c reads w
    obtain ⟨g1, g2, g3, g4, _⟩ := removeClient_spec (readMessages.loop env c reads w).1 c
    refine ⟨?_, ?_, ?_, ?_⟩
    · intro d
      have := g1 d
      rw [h1] at this
      exact this
    · have := g2
      rw [h1, h2, h3 c] at this
      exact this
    · exact g3.trans (congrArg Manager.otps h1)
    · exact g4.trans (congrArg Manager.handlers h1)

/-- Witness of C8: client 3, in room `other`, sends a chat-send frame with a
malformed payload and then a room-change to `lobby`; when its next read fails,
it is removed and its connection 13 is closed. -/
theorem readMessages_handler_errors_witness :
    (readMessages sampleEnv false
      [ReadResult.message "send" 1 [], ReadResult.message "join lobby" 2 []] 3
        sampleWorld).2 = LoopStatus.running ∧
    ((readMessages sampleEnv false
      [ReadResult.message "send" 1 [], ReadResult.message "join lobby" 2 []] 3
        sampleWorld).1.heap 3).chatroom = "lobby" ∧
    (readMessages sampleEnv false
      [ReadResult.message "send" 1 [], ReadResult.message "join lobby" 2 []] 3
        sampleWorld).1.manager = sampleWorld.manager ∧
    (readMessages sampleEnv false
      [ReadResult.message "send" 1 [], ReadResult.message "join lobby" 2 [],
        ReadResult.error] 3 sampleWorld).1.manager.clients.get? 3 = none ∧
    (readMessages sampleEnv false
      [ReadResult.message "send" 1 [], ReadResult.message "join lobby" 2 [],
        ReadResult.error] 3 sampleWorld).1.closed = [13] :=
  have h := readMessages_handler_errors sampleEnv 3 sampleWorld
  have h2 := h.2.1 "send" 1 [] ⟨"send_message", ""⟩ HandlerError.badPayload
    "join lobby" 2 [] ⟨"change_room", "lobby"⟩ ⟨"lobby"⟩ rfl (by decide) rfl (by decide) rfl
  have h6 := h.2.2.2.2.2
    [ReadResult.message "send" 1 [], ReadResult.message "join lobby" 2 [], ReadResult.error]
    (by decide)
  ⟨h2.1, h2.2.1, h2.2.2, (h6.1 3).trans (by decide), h6.2.1.trans (by decide)⟩

/-- C7, as the code behaves: when a message is received from the egress queue
and encodes, a failing transport write does not end the outbound loop, which
goes on with the next `select` and leaves the client registered, whereas a
failing heartbeat write ends the loop and removes the client. -/
theorem writeMessages_failed_write_goes_on (env : Env) (c : Nat) (w : World)
    (message : Event) (queue : List Event) (data : Bytes)
    (hq : (w.heap c).egress = message :: queue)
    (hm : env.marshalEvent message = some data) :
    (∀ rest, writeMessages env (WriteSelect.message true :: rest) c w =
      writeMessages env rest c
        ((w.store c { w.heap c with egress := queue }).write c (WireMessage.text data) true)) ∧
    (writeMessages env [WriteSelect.message true] c w).2 = LoopStatus.running ∧
    (writeMessages env [WriteSelect.message true] c w).1.manager = w.manager ∧
    (writeMessages env [WriteSelect.message true] c w).1.closed = w.closed ∧
    (writeMessages env [WriteSelect.tick true] c w).2 = LoopStatus.returned ∧
    (writeMessages env [WriteSelect.tick true] c w).1.manager.clients.get? c = none := by
  have hstep : ∀ rest, writeMessages env (WriteSelect.message true :: rest) c w =
      writeMessages env rest c
        ((w.store c { w.heap c with egress := queue }).write c (WireMessage.text data)
          true) := by
    intro rest
    unfold writeMessages
    simp only [writeMessages.loop, hq, hm]
  refine ⟨hstep, ?_, ?_, ?_, ?_, ?_⟩
  · rw [hstep]; rfl
  · rw [hstep]; rfl
  · rw [hstep]; rfl
  · rfl
  · simp only [writeMessages, writeMessages.loop, if_true]
    unfold removeClient
    simp only [World.write]
    cases h : w.manager.clients.get? c with
    | none => exact h
    | some b => simp [GoMap.get?_delete]

/-- Witness of C7: client 2 has the broadcast of `hi` in its egress queue and
the transport write of it fails. -/
theorem writeMessages_failed_write_goes_on_witness :
    (writeMessages sampleEnv [WriteSelect.message true] 2
      (SendMessage sampleEnv 7 [] ⟨"send_message", "hi"⟩ 1 sampleWorld).1).2 =
        LoopStatus.running ∧
    (writeMessages sampleEnv [WriteSelect.message true] 2
      (SendMessage sampleEnv 7 [] ⟨"send_message", "hi"⟩ 1 sampleWorld).1).1.manager.clients.get?
        2 = some true ∧
    (writeMessages sampleEnv [WriteSelect.tick true] 2
      (SendMessage sampleEnv 7 [] ⟨"send_message", "hi"⟩ 1 sampleWorld).1).2 =
        LoopStatus.returned :=
  have h := writeMessages_failed_write_goes_on sampleEnv 2
    (SendMessage sampleEnv 7 [] ⟨"send_message", "hi"⟩ 1 sampleWorld).1
    ⟨"new_message", "hi"⟩ [] "hi" (by decide) rfl
  ⟨h.2.1, by rw [h.2.2.1]; decide, h.2.2.2.2.1⟩

end ChatApp
